import Mathlib

/-!
# Verification of the `cards` Deck implementation (`src/deck.js`)

A shallow embedding of the Deck class from `src/deck.js`.  JavaScript arrays
become Lean `List`s, the `cards` `Set` becomes an insertion-ordered,
duplicate-free `List`, and thrown `Error`s become an explicit `DeckError`
value (`Except`, or an `Option DeckError` paired with the state at the moment
the exception escapes, for operations that mutate before throwing).
Machine numbers are `Int`/`Nat`.  The `shuffle` collaborator lives in
`src/rand.js`, which is not part of the sources; it is modelled from the
spec as a function parameter required to permute its input.
-/

namespace Cards

/-- Cards are opaque values compared by identity; we use `Nat` identifiers. -/
abbrev Card := Nat

/-- The errors thrown by Deck operations (`throw new Error(...)` in the
source), named after the spec's error taxonomy. -/
inductive DeckError where
  | invalidPile (pile : String)
  | emptyDeck
  | typeNotCard
  | notMember
deriving DecidableEq

/-- The module-level valid pile names: `piles = new Set` of the names "deck", "discard", "held". -/
def pileNames : List String := ["deck", "discard", "held"]

/-- The private per-instance state stored in the `props` WeakMap:
`cards` (a JS `Set`, modelled as an insertion-ordered duplicate-free list),
and the three pile arrays `deck`, `held`, `discard`. -/
structure DeckState where
  cards : List Card
  deck : List Card
  held : List Card
  discard : List Card
deriving DecidableEq

/-- JS `Set.prototype.add`: appends the element unless already present. -/
def setAdd (s : List Card) (c : Card) : List Card :=
  if c ∈ s then s else s ++ [c]

/-- JS `Set.prototype.delete`: removes the element (sets hold no duplicates,
so removing every occurrence is exact). -/
def setDelete (s : List Card) (c : Card) : List Card :=
  s.filter (fun x => x ≠ c)

/-- The module-level helper `remove(array, value)`: `indexOf` then
`splice(index, 1)`, i.e. delete the first occurrence, no-op when absent. -/
def arrayRemove (l : List Card) (c : Card) : List Card :=
  l.erase c

/-- Constructor `new Deck(cards)`: `cards: new Set(cards)`, `deck: cards.slice()`,
empty `held` and `discard`.  (The constructor also sets each card's
back-reference; back-references are modelled separately, see `TwoDecks`.) -/
def construct (cs : List Card) : DeckState :=
  { cards := cs.foldl setAdd []
    deck := cs
    held := []
    discard := [] }

/-- Getter `get totalLength()`: `props.get(this).cards.size`. -/
def totalLength (s : DeckState) : Nat :=
  s.cards.length

/-- Getter `get remainingLength()`: `props.get(this).deck.length`. -/
def remainingLength (s : DeckState) : Nat :=
  s.deck.length

/-- Getter `get held()`.  NOTE: the source reads
`return props.get(this).discard.slice();` — it returns a copy of the
DISCARD pile, despite its doc comment saying "held pile". -/
def heldGetter (s : DeckState) : List Card :=
  s.discard

/-- Getter `get discarded()`: `return props.get(this).discard.slice();`. -/
def discardedGetter (s : DeckState) : List Card :=
  s.discard

/-- Reading `_props[pile]`. -/
def getPile (s : DeckState) (pile : String) : List Card :=
  if pile = "deck" then s.deck
  else if pile = "discard" then s.discard
  else s.held

/-- Appending via `_props[pile].push(card)`. -/
def pushPile (s : DeckState) (pile : String) (c : Card) : DeckState :=
  if pile = "deck" then { s with deck := s.deck ++ [c] }
  else if pile = "discard" then { s with discard := s.discard ++ [c] }
  else { s with held := s.held ++ [c] }

/-- The mutation performed by `add(card, pile)` after the pile-name check:
`_props.cards.add(card); _props[pile].push(card)`. -/
def addOk (s : DeckState) (c : Card) (pile : String) : DeckState :=
  pushPile { s with cards := setAdd s.cards c } pile c

/-- Method `add(card, pile = "deck")`: throws on an unknown pile name, otherwise
inserts the card into the membership set and appends it to the named pile. -/
def add (s : DeckState) (c : Card) (pile : String) : Except DeckError DeckState :=
  if pile ∈ pileNames then .ok (addOk s c pile)
  else .error (.invalidPile pile)

/-- Method `remove(card)`: `cards.delete(card)` and first-occurrence removal from
each of the three pile arrays.  (Also clears the card's back-reference;
modelled in `removeFst`/`removeSnd` below.) -/
def remove (s : DeckState) (c : Card) : DeckState :=
  { cards := setDelete s.cards c
    deck := arrayRemove s.deck c
    held := arrayRemove s.held c
    discard := arrayRemove s.discard c }

/-- Method `draw(count = 1)`: throws when the deck pile is empty, returns `[]`
without mutation when `count < 0`, otherwise `deck.splice(0, count)`
appended to `held`. -/
def draw (s : DeckState) (count : Int) : Except DeckError (List Card × DeckState) :=
  if s.deck = [] then .error .emptyDeck
  else if count < 0 then .ok ([], s)
  else
    let drawn := s.deck.take count.toNat
    .ok (drawn, { s with deck := s.deck.drop count.toNat, held := s.held ++ drawn })

/-- Method `drawFromBottom(count = 1)`: `start = Math.max(deck.length - count, 0)`
(truncated subtraction below), `deck.splice(start, count).reverse()`
appended to `held`.  Since `start + count ≥ deck.length`, the spliced-out
segment is exactly `deck.drop start`. -/
def drawFromBottom (s : DeckState) (count : Int) : Except DeckError (List Card × DeckState) :=
  if s.deck = [] then .error .emptyDeck
  else if count < 0 then .ok ([], s)
  else
    let start := s.deck.length - count.toNat
    let drawn := (s.deck.drop start).reverse
    .ok (drawn, { s with deck := s.deck.take start, held := s.held ++ drawn })

/-- Method `drawToDiscard(count = 1)`: like `draw` but into the discard pile. -/
def drawToDiscard (s : DeckState) (count : Int) : Except DeckError (List Card × DeckState) :=
  if s.deck = [] then .error .emptyDeck
  else if count < 0 then .ok ([], s)
  else
    let drawn := s.deck.take count.toNat
    .ok (drawn, { s with deck := s.deck.drop count.toNat, discard := s.discard ++ drawn })

/-- Method `drawToDiscardFromBottom(count = 1)`: like `drawFromBottom` but into the
discard pile. -/
def drawToDiscardFromBottom (s : DeckState) (count : Int) :
    Except DeckError (List Card × DeckState) :=
  if s.deck = [] then .error .emptyDeck
  else if count < 0 then .ok ([], s)
  else
    let start := s.deck.length - count.toNat
    let drawn := (s.deck.drop start).reverse
    .ok (drawn, { s with deck := s.deck.take start, discard := s.discard ++ drawn })

/-- The single-card body of `discard(card)` (reached when the argument is a
Card instance): membership check, then move the first occurrence out of
`deck` or, failing that, out of `held`, appending to `discard`; no pile
mutation otherwise. -/
def discardCard (s : DeckState) (c : Card) : Except DeckError DeckState :=
  if c ∈ s.cards then
    if c ∈ s.deck then
      .ok { s with deck := s.deck.erase c, discard := s.discard ++ [c] }
    else if c ∈ s.held then
      .ok { s with held := s.held.erase c, discard := s.discard ++ [c] }
    else .ok s
  else .error .notMember

/-- A JavaScript value passed to `discard`: a Card instance, an array of
values, or anything else (fails the `instanceof Card` check). -/
inductive JSVal where
  | card (c : Card)
  | arr (vs : List JSVal)
  | other

mutual

/-- Method `discard(card)`: `Array.isArray` dispatch first, then the
`instanceof Card` check, then the single-card body. -/
def discardVal (s : DeckState) : JSVal → Except DeckError DeckState
  | .card c => discardCard s c
  | .arr vs => discardList s vs
  | .other => .error .typeNotCard

/-- Loop `card.forEach((card) => this.discard(card))`: sequential left-to-right
processing; a thrown error aborts the remaining elements. -/
def discardList (s : DeckState) : List JSVal → Except DeckError DeckState
  | [] => .ok s
  | v :: vs =>
    match discardVal s v with
    | .error e => .error e
    | .ok s1 => discardList s1 vs

end

/-- Method `findCards(filter)`: iterates the `cards` set in insertion order,
collecting the cards for which the filter returns true. -/
def findCards (s : DeckState) (filter : Card → Bool) : List Card :=
  s.cards.filter filter

/-- Method `shuffleAll()`: pushes `held` then `discard` onto `deck`, empties both,
then shuffles `deck`.  `sh` models the external `shuffle` from `src/rand.js`
(modelled from the spec: an in-place random permutation). -/
def shuffleAll (sh : List Card → List Card) (s : DeckState) : DeckState :=
  { s with deck := sh (s.deck ++ s.held ++ s.discard), held := [], discard := [] }

/-- Method `shuffleRemaining()`: shuffles `deck` in place. -/
def shuffleRemaining (sh : List Card → List Card) (s : DeckState) : DeckState :=
  { s with deck := sh s.deck }

/-- Method `shuffleDiscard()`: shuffles `discard` in place, appends it to `deck`,
empties `discard`. -/
def shuffleDiscard (sh : List Card → List Card) (s : DeckState) : DeckState :=
  { s with deck := s.deck ++ sh s.discard, discard := [] }

/-- Method `shuffleDeckAndDiscard()`: appends `discard` to `deck`, empties
`discard`, shuffles the combined `deck`. -/
def shuffleDeckAndDiscard (sh : List Card → List Card) (s : DeckState) : DeckState :=
  { s with deck := sh (s.deck ++ s.discard), discard := [] }

/-- Method `discardAllHeld()`: appends `held` to `discard`, empties `held`. -/
def discardAllHeld (s : DeckState) : DeckState :=
  { s with discard := s.discard ++ s.held, held := [] }

/-!
## Two deck instances and card back-references

`merge` and `remove` also touch `card.deck`, the card's back-reference to
its owning deck.  We model a world of two distinct Deck instances plus the
back-reference of every card: `some false` points at the first deck,
`some true` at the second, `none` is JS `null`/unset.
-/

/-- Two distinct Deck instances and each card's `card.deck` back-reference. -/
structure TwoDecks where
  d1 : DeckState
  d2 : DeckState
  backref : Card → Option Bool

/-- Method `remove(card)` called on the first deck: mutates only the first deck's
props and sets `card.deck = null` unconditionally. -/
def removeFst (w : TwoDecks) (c : Card) : TwoDecks :=
  { w with d1 := remove w.d1 c, backref := fun x => if x = c then none else w.backref x }

/-- Method `remove(card)` called on the second deck. -/
def removeSnd (w : TwoDecks) (c : Card) : TwoDecks :=
  { w with d2 := remove w.d2 c, backref := fun x => if x = c then none else w.backref x }

/-- Method `add(card, pile)` called on the first deck: the pile-name check throws
BEFORE `card.deck = this` and before any pile mutation. -/
def addFst (w : TwoDecks) (c : Card) (pile : String) : Except DeckError TwoDecks :=
  if pile ∈ pileNames then
    .ok { w with
            d1 := addOk w.d1 c pile
            backref := fun x => if x = c then some false else w.backref x }
  else .error (.invalidPile pile)

/-- The loop body of `merge(deck, pile)` on the first deck with the second
as source, iterating a list of cards: `deck.remove(card); this.add(card, pile)`.
Returns the world at exit together with the escaped error, if any (a throw
inside `forEach` propagates, leaving the mutations made so far in place). -/
def mergeAux (pile : String) (w : TwoDecks) : List Card → TwoDecks × Option DeckError
  | [] => (w, none)
  | c :: cs =>
    let w1 := removeSnd w c
    match addFst w1 c pile with
    | .error e => (w1, some e)
    | .ok w2 => mergeAux pile w2 cs

/-- Method `merge(deck, pile = "deck")` on the first deck, second deck as source.
`Set.prototype.forEach` visits insertion order; during the loop the only
deletions from the source set are of the element currently being visited,
and insertions go into the other (distinct) deck's set, so the iteration is
exactly a snapshot of `d2.cards` taken at entry. -/
def merge (pile : String) (w : TwoDecks) : TwoDecks × Option DeckError :=
  mergeAux pile w w.d2.cards

/-!
## Reachable single-deck states

The effect of the public operations on one deck's private state.  A
`merge` touches two decks: its effect on the target is a sequence of
`addOk`s over the moved cards and on the source a sequence of `remove`s
(see `mergeAux`); `addAll` and `removeAll` below capture those.  A thrown
error never leaves the deck in a new state (every throw happens before any
mutation of the throwing deck), so only `.ok` results generate states.
`discard` on an array is literally `this.discard(card)` per element, hence
covered by the single-card step.  Getters, `locateCard` and `findCards` do
not mutate.
-/

/-- The target side of `merge`: each moved card is `add`ed in turn. -/
def addAll (s : DeckState) (cs : List Card) (pile : String) : DeckState :=
  cs.foldl (fun t c => addOk t c pile) s

/-- The source side of `merge`: each moved card is `remove`d in turn. -/
def removeAll (s : DeckState) (cs : List Card) : DeckState :=
  cs.foldl remove s

/-- Deck states reachable from a fresh constructor call by public
operations, under the freshness discipline: no card is introduced
(constructor, `add`, target side of `merge`) while already a member of this
deck.  Shuffle steps take the external `shuffle` function together with the
spec-modelled guarantee that it permutes its input. -/
inductive ReachFresh : DeckState → Prop where
  | init (cs : List Card) (hnd : cs.Nodup) : ReachFresh (construct cs)
  | addStep {s : DeckState} (c : Card) (pile : String) (hp : pile ∈ pileNames)
      (hfresh : c ∉ s.cards) : ReachFresh s → ReachFresh (addOk s c pile)
  | removeStep {s : DeckState} (c : Card) : ReachFresh s → ReachFresh (remove s c)
  | mergeTargetStep {s : DeckState} (cs : List Card) (pile : String) (hp : pile ∈ pileNames)
      (hnd : cs.Nodup) (hfresh : ∀ c ∈ cs, c ∉ s.cards) :
      ReachFresh s → ReachFresh (addAll s cs pile)
  | mergeSourceStep {s : DeckState} (cs : List Card) :
      ReachFresh s → ReachFresh (removeAll s cs)
  | drawStep {s s1 : DeckState} (count : Int) (r : List Card)
      (h : draw s count = .ok (r, s1)) : ReachFresh s → ReachFresh s1
  | drawFromBottomStep {s s1 : DeckState} (count : Int) (r : List Card)
      (h : drawFromBottom s count = .ok (r, s1)) : ReachFresh s → ReachFresh s1
  | drawToDiscardStep {s s1 : DeckState} (count : Int) (r : List Card)
      (h : drawToDiscard s count = .ok (r, s1)) : ReachFresh s → ReachFresh s1
  | drawToDiscardFromBottomStep {s s1 : DeckState} (count : Int) (r : List Card)
      (h : drawToDiscardFromBottom s count = .ok (r, s1)) : ReachFresh s → ReachFresh s1
  | discardStep {s s1 : DeckState} (c : Card) (h : discardCard s c = .ok s1) :
      ReachFresh s → ReachFresh s1
  | shuffleAllStep {s : DeckState} (sh : List Card → List Card)
      (hsh : (sh (s.deck ++ s.held ++ s.discard)).Perm (s.deck ++ s.held ++ s.discard)) :
      ReachFresh s → ReachFresh (shuffleAll sh s)
  | shuffleRemainingStep {s : DeckState} (sh : List Card → List Card)
      (hsh : (sh s.deck).Perm s.deck) : ReachFresh s → ReachFresh (shuffleRemaining sh s)
  | shuffleDiscardStep {s : DeckState} (sh : List Card → List Card)
      (hsh : (sh s.discard).Perm s.discard) : ReachFresh s → ReachFresh (shuffleDiscard sh s)
  | shuffleDeckAndDiscardStep {s : DeckState} (sh : List Card → List Card)
      (hsh : (sh (s.deck ++ s.discard)).Perm (s.deck ++ s.discard)) :
      ReachFresh s → ReachFresh (shuffleDeckAndDiscard sh s)
  | discardAllHeldStep {s : DeckState} : ReachFresh s → ReachFresh (discardAllHeld s)

/-- The pile-membership invariant: the membership set has no duplicates and
the concatenation of the three piles is a permutation of it (hence every
member card sits in exactly one pile, exactly once). -/
def Inv (s : DeckState) : Prop :=
  s.cards.Nodup ∧ (s.deck ++ s.held ++ s.discard).Perm s.cards

/-!
## Claim theorems
-/

/-- C1: the claim says the `held` accessor returns a copy of the held pile.
The source instead returns a copy of the DISCARD pile
(`return props.get(this).discard.slice();`), contradicting its own doc
comment.  Witnessed here on the state reached by `new Deck([0]); draw(1)`,
where held = `[0]` but the `held` getter yields `[]` (and equals the
`discarded` getter). -/
theorem held_getter_reads_discard_pile :
    draw (construct [0]) 1 =
      .ok ([0], { cards := [0], deck := [], held := [0], discard := [] })
    ∧ heldGetter { cards := [0], deck := [], held := [0], discard := [] } = []
    ∧ DeckState.held { cards := [0], deck := [], held := [0], discard := [] } = [0]
    ∧ heldGetter { cards := [0], deck := [], held := [0], discard := [] } =
        discardedGetter { cards := [0], deck := [], held := [0], discard := [] } := by
  refine ⟨rfl, rfl, rfl, rfl⟩

/-- C4: each of the four draw-family operations fails with `EmptyDeckError`
exactly when the draw pile is empty at call time, regardless of `count`;
and with a non-empty draw pile and `count < 0` each returns an empty
sequence and leaves the whole state unchanged. -/
theorem draw_family_empty_check_and_negative_count (s : DeckState) (count : Int) :
    (draw s count = .error .emptyDeck ↔ s.deck = [])
    ∧ (drawFromBottom s count = .error .emptyDeck ↔ s.deck = [])
    ∧ (drawToDiscard s count = .error .emptyDeck ↔ s.deck = [])
    ∧ (drawToDiscardFromBottom s count = .error .emptyDeck ↔ s.deck = [])
    ∧ (s.deck ≠ [] → count < 0 →
        draw s count = .ok ([], s) ∧ drawFromBottom s count = .ok ([], s)
        ∧ drawToDiscard s count = .ok ([], s)
        ∧ drawToDiscardFromBottom s count = .ok ([], s)) := by
  by_cases hd : s.deck = [] <;> by_cases hc : count < 0 <;>
    simp [draw, drawFromBottom, drawToDiscard, drawToDiscardFromBottom, hd, hc]

/-- Witness for C4 at concrete inputs: a non-empty deck with `count = -1`
returns `[]` unchanged, and a deck with an empty draw pile throws. -/
theorem draw_family_empty_check_and_negative_count_check :
    draw { cards := [0], deck := [0], held := [], discard := [] } (-1) =
      .ok ([], { cards := [0], deck := [0], held := [], discard := [] })
    ∧ drawToDiscard { cards := [0], deck := [], held := [0], discard := [] } 1 =
        .error .emptyDeck := by
  refine ⟨((draw_family_empty_check_and_negative_count
      { cards := [0], deck := [0], held := [], discard := [] } (-1)).2.2.2.2
      (by decide) (by decide)).1, ?_⟩
  exact (draw_family_empty_check_and_negative_count
      { cards := [0], deck := [], held := [0], discard := [] } 1).2.2.1.mpr rfl

/-- C6: `drawFromBottom` removes up to `count` cards from the back of the
draw pile and reverses them before appending to held and before returning:
the returned cards reversed form the removed back segment, of length
`min count |drawPile|`.  Includes the spec scenario with `[A,B,C] = [0,1,2]`:
`draw(2)` returns `[0,1]` (held `[0,1]`, draw `[2]`), then
`drawFromBottom(1)` returns `[2]` (draw empty, held `[0,1,2]`). -/
theorem drawFromBottom_reverses_back_segment (s : DeckState) (count : Int)
    (hne : s.deck ≠ []) (hc : 0 ≤ count) :
    (∃ drawn s1, drawFromBottom s count = .ok (drawn, s1)
      ∧ s1.deck ++ drawn.reverse = s.deck
      ∧ drawn.length = min count.toNat s.deck.length
      ∧ s1.held = s.held ++ drawn
      ∧ s1.discard = s.discard ∧ s1.cards = s.cards)
    ∧ draw (construct [0, 1, 2]) 2 =
        .ok ([0, 1], { cards := [0, 1, 2], deck := [2], held := [0, 1], discard := [] })
    ∧ drawFromBottom { cards := [0, 1, 2], deck := [2], held := [0, 1], discard := [] } 1 =
        .ok ([2], { cards := [0, 1, 2], deck := [], held := [0, 1, 2], discard := [] }) := by
  refine ⟨?_, rfl, rfl⟩
  refine ⟨(s.deck.drop (s.deck.length - count.toNat)).reverse,
    { s with deck := s.deck.take (s.deck.length - count.toNat)
             held := s.held ++ (s.deck.drop (s.deck.length - count.toNat)).reverse },
    ?_, ?_, ?_, rfl, rfl, rfl⟩
  · simp [drawFromBottom, hne, Int.not_lt.mpr hc]
  · simp
  · simp only [List.length_reverse, List.length_drop]
    omega

/-- Witness for C6 at a concrete input. -/
theorem drawFromBottom_reverses_back_segment_check :
    ∃ drawn s1,
      drawFromBottom { cards := [0, 1, 2], deck := [0, 1, 2], held := [], discard := [] } 2 =
        .ok (drawn, s1)
      ∧ s1.deck ++ drawn.reverse =
          DeckState.deck { cards := [0, 1, 2], deck := [0, 1, 2], held := [], discard := [] }
      ∧ drawn.length = min (Int.toNat 2)
          (DeckState.deck
            { cards := [0, 1, 2], deck := [0, 1, 2], held := [], discard := [] }).length
      ∧ s1.held =
          DeckState.held { cards := [0, 1, 2], deck := [0, 1, 2], held := [], discard := [] }
            ++ drawn
      ∧ s1.discard =
          DeckState.discard { cards := [0, 1, 2], deck := [0, 1, 2], held := [], discard := [] }
      ∧ s1.cards =
          DeckState.cards { cards := [0, 1, 2], deck := [0, 1, 2], held := [], discard := [] } :=
  (drawFromBottom_reverses_back_segment
    { cards := [0, 1, 2], deck := [0, 1, 2], held := [], discard := [] } 2
    (by decide) (by decide)).1

/-- C7: `shuffleDiscard` leaves the old draw pile as an unchanged prefix,
appends a permutation of the old discard pile as the suffix, empties the
discard pile, and leaves the held pile (and the membership set) unchanged.
`sh` is the spec-modelled shuffle, assumed to permute its input. -/
theorem shuffleDiscard_frames_draw_prefix (sh : List Card → List Card) (s : DeckState)
    (hsh : (sh s.discard).Perm s.discard) :
    (shuffleDiscard sh s).deck.take s.deck.length = s.deck
    ∧ ((shuffleDiscard sh s).deck.drop s.deck.length).Perm s.discard
    ∧ (shuffleDiscard sh s).discard = []
    ∧ (shuffleDiscard sh s).held = s.held
    ∧ (shuffleDiscard sh s).cards = s.cards := by
  refine ⟨?_, ?_, rfl, rfl, rfl⟩
  · simp [shuffleDiscard, List.take_left]
  · simpa [shuffleDiscard, List.drop_left] using hsh

/-- Witness for C7 with the identity permutation at a concrete state. -/
theorem shuffleDiscard_frames_draw_prefix_check :
    (shuffleDiscard id { cards := [0, 1, 2], deck := [0], held := [1], discard := [2] }).deck.take
        (DeckState.deck { cards := [0, 1, 2], deck := [0], held := [1], discard := [2] }).length =
      DeckState.deck { cards := [0, 1, 2], deck := [0], held := [1], discard := [2] }
    ∧ ((shuffleDiscard id
          { cards := [0, 1, 2], deck := [0], held := [1], discard := [2] }).deck.drop
        (DeckState.deck
          { cards := [0, 1, 2], deck := [0], held := [1], discard := [2] }).length).Perm
        (DeckState.discard { cards := [0, 1, 2], deck := [0], held := [1], discard := [2] })
    ∧ (shuffleDiscard id { cards := [0, 1, 2], deck := [0], held := [1], discard := [2] }).discard
        = []
    ∧ (shuffleDiscard id { cards := [0, 1, 2], deck := [0], held := [1], discard := [2] }).held =
        DeckState.held { cards := [0, 1, 2], deck := [0], held := [1], discard := [2] }
    ∧ (shuffleDiscard id { cards := [0, 1, 2], deck := [0], held := [1], discard := [2] }).cards =
        DeckState.cards { cards := [0, 1, 2], deck := [0], held := [1], discard := [2] } :=
  shuffleDiscard_frames_draw_prefix id
    { cards := [0, 1, 2], deck := [0], held := [1], discard := [2] } (List.Perm.refl _)

/-- C9: `remove` clears the card's owning-deck back-reference
unconditionally — also when the card belongs to the OTHER deck, which still
holds it afterwards (the removing deck's props are the only deck state
touched). -/
theorem remove_clears_backref_of_foreign_card (w : TwoDecks) (c : Card)
    (_h1 : c ∉ w.d1.cards) (h2 : c ∈ w.d2.cards) :
    (removeFst w c).backref c = none
    ∧ (removeFst w c).d2 = w.d2
    ∧ c ∈ (removeFst w c).d2.cards := by
  exact ⟨by simp [removeFst], rfl, h2⟩

/-- Witness for C9: a card owned by the second deck, `remove`d on the first. -/
theorem remove_clears_backref_of_foreign_card_check :
    (removeFst
      { d1 := { cards := [], deck := [], held := [], discard := [] }
        d2 := { cards := [5], deck := [5], held := [], discard := [] }
        backref := fun x => if x = 5 then some true else none } 5).backref 5 = none
    ∧ (removeFst
      { d1 := { cards := [], deck := [], held := [], discard := [] }
        d2 := { cards := [5], deck := [5], held := [], discard := [] }
        backref := fun x => if x = 5 then some true else none } 5).d2 =
        { cards := [5], deck := [5], held := [], discard := [] }
    ∧ 5 ∈ (removeFst
      { d1 := { cards := [], deck := [], held := [], discard := [] }
        d2 := { cards := [5], deck := [5], held := [], discard := [] }
        backref := fun x => if x = 5 then some true else none } 5).d2.cards :=
  remove_clears_backref_of_foreign_card _ 5 (by decide) (by decide)

/-- The list case of `discard` is the left-to-right monadic fold of the single-value
`discard` over the elements, aborting at the first error. -/
theorem discardList_eq_foldlM (vs : List JSVal) :
    ∀ s : DeckState, discardList s vs = vs.foldlM discardVal s := by
  induction vs with
  | nil => intro s; rfl
  | cons v vs ih =>
    intro s
    rw [discardList, List.foldlM_cons]
    cases h : discardVal s v with
    | error e => rfl
    | ok s1 => exact ih s1

/-- C5: `discard` fails with `TypeNotCardError` on a non-Card, with
`NotMemberError` on a Card outside `allCards`; it moves a card out of the
draw or held pile and appends it to the discard pile; it mutates no pile
when the card is already discarded; and on a sequence it is the sequential
per-element application of itself. -/
theorem discard_moves_from_draw_or_held (s : DeckState) (c : Card) (vs : List JSVal)
    (hnd : (s.deck ++ s.held ++ s.discard).Nodup) :
    discardVal s .other = .error .typeNotCard
    ∧ (c ∉ s.cards → discardVal s (.card c) = .error .notMember)
    ∧ (c ∈ s.cards → c ∈ s.deck →
        discardVal s (.card c) =
          .ok { s with deck := s.deck.erase c, discard := s.discard ++ [c] }
        ∧ c ∉ s.deck.erase c)
    ∧ (c ∈ s.cards → c ∈ s.held →
        discardVal s (.card c) =
          .ok { s with held := s.held.erase c, discard := s.discard ++ [c] }
        ∧ c ∉ s.held.erase c)
    ∧ (c ∈ s.cards → c ∈ s.discard → discardVal s (.card c) = .ok s)
    ∧ discardVal s (.arr vs) = vs.foldlM discardVal s := by
  have h12 : (s.deck ++ s.held).Nodup := (List.nodup_append.mp hnd).1
  have hdisj2 : ∀ a, a ∈ s.deck ++ s.held → a ∉ s.discard :=
    fun a ha => (List.nodup_append.mp hnd).2.2 ha
  have hdisj1 : ∀ a, a ∈ s.deck → a ∉ s.held :=
    fun a ha => (List.nodup_append.mp h12).2.2 ha
  refine ⟨rfl, ?_, ?_, ?_, ?_, discardList_eq_foldlM vs s⟩
  · intro hc
    simp [discardVal, discardCard, hc]
  · intro hc hd
    exact ⟨by simp [discardVal, discardCard, hc, hd],
      ((List.nodup_append.mp h12).1).not_mem_erase⟩
  · intro hc hh
    have hd : c ∉ s.deck := fun h => hdisj1 c h hh
    exact ⟨by simp [discardVal, discardCard, hc, hh, hd],
      ((List.nodup_append.mp h12).2.1).not_mem_erase⟩
  · intro hc hdi
    have hd : c ∉ s.deck := fun h => hdisj2 c (List.mem_append.mpr (Or.inl h)) hdi
    have hh : c ∉ s.held := fun h => hdisj2 c (List.mem_append.mpr (Or.inr h)) hdi
    simp [discardVal, discardCard, hc, hd, hh]

/-- Witness for C5: a card in the draw pile is moved to the discard pile. -/
theorem discard_moves_from_draw_or_held_check :
    discardVal { cards := [0, 1, 2], deck := [0], held := [1], discard := [2] }
        (.card 0) =
      .ok { cards := [0, 1, 2], deck := List.erase [0] 0, held := [1],
            discard := [2] ++ [0] }
    ∧ (0 : Card) ∉ List.erase [0] 0 :=
  (discard_moves_from_draw_or_held
    { cards := [0, 1, 2], deck := [0], held := [1], discard := [2] } 0 []
    (by decide)).2.2.1 (by decide) (by decide)

/-- C8: after `remove` of a member card, `findCards` on identity with that
card returns the empty sequence and `totalLength` drops by exactly one; on
a card outside `allCards` (hence, in an invariant-satisfying state, outside
every pile) `remove` changes nothing. -/
theorem remove_then_findCards_empty (s : DeckState) (c : Card) (hinv : Inv s) :
    (c ∈ s.cards →
      findCards (remove s c) (fun x => x = c) = []
      ∧ totalLength (remove s c) + 1 = totalLength s)
    ∧ (c ∉ s.cards → remove s c = s) := by
  obtain ⟨hnd, hperm⟩ := hinv
  constructor
  · intro hc
    constructor
    · simp only [findCards, remove, setDelete]
      rw [List.filter_eq_nil_iff]
      intro a ha
      rcases List.mem_filter.mp ha with ⟨-, hne⟩
      simp only [ne_eq, decide_not, Bool.not_eq_eq_eq_not, Bool.not_true,
        decide_eq_false_iff_not] at hne
      simp [hne]
    · have hfe : s.cards.filter (fun x => decide (x ≠ c)) = s.cards.filter (fun x => x != c) := by
        apply List.filter_congr
        intro a _
        by_cases h : a = c <;> simp [h, bne]
      simp only [totalLength, remove, setDelete, hfe, ← hnd.erase_eq_filter]
      exact List.length_erase_add_one hc
  · intro hc
    have hcd : c ∉ s.deck := fun h => hc (hperm.subset (by simp [h]))
    have hch : c ∉ s.held := fun h => hc (hperm.subset (by simp [h]))
    have hcdi : c ∉ s.discard := fun h => hc (hperm.subset (by simp [h]))
    have hfil : s.cards.filter (fun x => decide (x ≠ c)) = s.cards := by
      apply List.filter_eq_self.mpr
      intro a ha
      simp only [ne_eq, decide_eq_true_eq]
      exact fun h => hc (h ▸ ha)
    cases s with
    | mk cards deck held discard =>
      simp_all [remove, setDelete, arrayRemove, List.erase_of_not_mem]

/-- Witness for C8 at a concrete deck: removing a member, and removing an
absent card. -/
theorem remove_then_findCards_empty_check :
    (findCards (remove { cards := [0, 1], deck := [0], held := [1], discard := [] } 0)
        (fun x => x = 0) = []
      ∧ totalLength (remove { cards := [0, 1], deck := [0], held := [1], discard := [] } 0)
          + 1 =
        totalLength { cards := [0, 1], deck := [0], held := [1], discard := [] })
    ∧ remove { cards := [0, 1], deck := [0], held := [1], discard := [] } 5 =
        { cards := [0, 1], deck := [0], held := [1], discard := [] } :=
  ⟨(remove_then_findCards_empty { cards := [0, 1], deck := [0], held := [1], discard := [] } 0
      ⟨by decide, by decide⟩).1 (by decide),
   (remove_then_findCards_empty { cards := [0, 1], deck := [0], held := [1], discard := [] } 5
      ⟨by decide, by decide⟩).2 (by decide)⟩

/-- Membership in a JS `Set` after `add`. -/
theorem mem_setAdd {s : List Card} {c a : Card} : a ∈ setAdd s c ↔ a ∈ s ∨ a = c := by
  by_cases h : c ∈ s
  · simp only [setAdd, if_pos h]
    constructor
    · exact Or.inl
    · rintro (h1 | rfl)
      · exact h1
      · exact h
  · simp [setAdd, if_neg h]

/-- After `addOk` the membership set is the JS `Set.add` result. -/
theorem cards_addOk (s : DeckState) (c : Card) (pile : String) :
    (addOk s c pile).cards = setAdd s.cards c := by
  by_cases h1 : pile = "deck" <;> by_cases h2 : pile = "discard" <;>
    simp [addOk, pushPile, h1, h2]

/-- After `addOk` the targeted pile has the card appended at its end. -/
theorem getPile_addOk (s : DeckState) (c : Card) (pile : String) :
    getPile (addOk s c pile) pile = getPile s pile ++ [c] := by
  by_cases h1 : pile = "deck" <;> by_cases h2 : pile = "discard" <;>
    simp [getPile, addOk, pushPile, h1, h2]

/-- Repeated `add` appends the cards at the end of the target pile in
iteration order. -/
theorem getPile_addAll (pile : String) (l : List Card) :
    ∀ s : DeckState, getPile (addAll s l pile) pile = getPile s pile ++ l := by
  induction l with
  | nil => intro s; simp [addAll]
  | cons c cs ih =>
    intro s
    rw [show addAll s (c :: cs) pile = addAll (addOk s c pile) cs pile from rfl, ih,
      getPile_addOk]
    simp

/-- Membership after repeated `add`. -/
theorem mem_cards_addAll (pile : String) (l : List Card) :
    ∀ (s : DeckState) (a : Card), a ∈ (addAll s l pile).cards ↔ a ∈ s.cards ∨ a ∈ l := by
  induction l with
  | nil => intro s a; simp [addAll]
  | cons c cs ih =>
    intro s a
    rw [show addAll s (c :: cs) pile = addAll (addOk s c pile) cs pile from rfl, ih,
      cards_addOk, mem_setAdd]
    simp [or_assoc, or_comm, or_left_comm]

/-- Repeated `remove` filters the membership set by non-membership in the
removed list. -/
theorem cards_removeAll (l : List Card) :
    ∀ s : DeckState, (removeAll s l).cards = s.cards.filter (fun x => x ∉ l) := by
  induction l with
  | nil => intro s; simp [removeAll]
  | cons c cs ih =>
    intro s
    rw [show removeAll s (c :: cs) = removeAll (remove s c) cs from rfl, ih]
    simp only [remove, setDelete, List.filter_filter]
    apply List.filter_congr
    intro a _
    by_cases h1 : a ∈ cs <;> by_cases h2 : a = c <;> simp [h1, h2]

/-- With a valid pile name the `merge` loop never throws; its effect on the
target deck is `addAll` and on the source deck `removeAll` over the
iterated snapshot. -/
theorem mergeAux_valid (pile : String) (hp : pile ∈ pileNames) :
    ∀ (l : List Card) (w : TwoDecks),
      (mergeAux pile w l).2 = none
      ∧ (mergeAux pile w l).1.d1 = addAll w.d1 l pile
      ∧ (mergeAux pile w l).1.d2 = removeAll w.d2 l := by
  intro l
  induction l with
  | nil => intro w; exact ⟨rfl, rfl, rfl⟩
  | cons c cs ih =>
    intro w
    simp only [mergeAux, removeSnd, addFst, if_pos hp]
    exact ⟨(ih _).1, (ih _).2.1, (ih _).2.2⟩

/-- C3: merging with a valid pile name iterates the entry snapshot of the
source deck's membership set: afterwards the source's `allCards` is empty,
the target's named pile has gained exactly those cards appended at its end
in snapshot order, and the target's `allCards` is the union. -/
theorem merge_moves_all_cards (w : TwoDecks) (pile : String) (hp : pile ∈ pileNames) :
    (merge pile w).2 = none
    ∧ (merge pile w).1.d2.cards = []
    ∧ getPile (merge pile w).1.d1 pile = getPile w.d1 pile ++ w.d2.cards
    ∧ (∀ a : Card, a ∈ (merge pile w).1.d1.cards ↔ a ∈ w.d1.cards ∨ a ∈ w.d2.cards) := by
  obtain ⟨h2, hd1, hd2⟩ := mergeAux_valid pile hp w.d2.cards w
  refine ⟨h2, ?_, ?_, ?_⟩
  · rw [show (merge pile w).1.d2 = removeAll w.d2 w.d2.cards from hd2, cards_removeAll]
    exact List.filter_eq_nil_iff.mpr (fun a ha => by simp [ha])
  · rw [show (merge pile w).1.d1 = addAll w.d1 w.d2.cards pile from hd1, getPile_addAll]
  · intro a
    rw [show (merge pile w).1.d1 = addAll w.d1 w.d2.cards pile from hd1, mem_cards_addAll]

/-- Witness for C3: merging a two-card deck into the held pile (the spec's
merge scenario). -/
theorem merge_moves_all_cards_check :
    (merge "held"
      { d1 := { cards := [0], deck := [0], held := [], discard := [] }
        d2 := { cards := [1, 2], deck := [1, 2], held := [], discard := [] }
        backref := fun _ => none }).2 = none
    ∧ (merge "held"
      { d1 := { cards := [0], deck := [0], held := [], discard := [] }
        d2 := { cards := [1, 2], deck := [1, 2], held := [], discard := [] }
        backref := fun _ => none }).1.d2.cards = []
    ∧ getPile (merge "held"
      { d1 := { cards := [0], deck := [0], held := [], discard := [] }
        d2 := { cards := [1, 2], deck := [1, 2], held := [], discard := [] }
        backref := fun _ => none }).1.d1 "held" =
        getPile { cards := [0], deck := [0], held := [], discard := [] } "held" ++ [1, 2]
    ∧ (∀ a : Card, a ∈ (merge "held"
      { d1 := { cards := [0], deck := [0], held := [], discard := [] }
        d2 := { cards := [1, 2], deck := [1, 2], held := [], discard := [] }
        backref := fun _ => none }).1.d1.cards ↔
        a ∈ DeckState.cards { cards := [0], deck := [0], held := [], discard := [] }
        ∨ a ∈ DeckState.cards { cards := [1, 2], deck := [1, 2], held := [], discard := [] }) :=
  merge_moves_all_cards
    { d1 := { cards := [0], deck := [0], held := [], discard := [] }
      d2 := { cards := [1, 2], deck := [1, 2], held := [], discard := [] }
      backref := fun _ => none } "held" (by decide)

/-!
## Preservation of the pile-membership invariant
-/

/-- Building `new Set(cards)` from a duplicate-free list gives that list back. -/
theorem foldl_setAdd_of_nodup : ∀ (cs acc : List Card), acc.Nodup → cs.Nodup →
    (∀ c ∈ cs, c ∉ acc) → cs.foldl setAdd acc = acc ++ cs := by
  intro cs
  induction cs with
  | nil => intro acc _ _ _; simp
  | cons c cs ih =>
    intro acc hacc hnd hdisj
    have hc : c ∉ acc := hdisj c (by simp)
    obtain ⟨hcc, hndcs⟩ := List.nodup_cons.mp hnd
    rw [List.foldl_cons, show setAdd acc c = acc ++ [c] from by simp [setAdd, hc]]
    rw [ih (acc ++ [c]) (by simp [List.nodup_append, hacc, hc]) hndcs ?_]
    · simp
    · intro a ha
      simp only [List.mem_append, List.mem_singleton, not_or]
      exact ⟨fun h => hdisj a (by simp [ha]) h, fun h => hcc (h ▸ ha)⟩

/-- The constructor establishes the invariant when the initial cards are
pairwise distinct. -/
theorem inv_construct (cs : List Card) (hnd : cs.Nodup) : Inv (construct cs) := by
  have hc : (construct cs).cards = cs := by
    rw [show (construct cs).cards = cs.foldl setAdd [] from rfl,
      foldl_setAdd_of_nodup cs [] List.nodup_nil hnd (by simp)]
    simp
  constructor
  · rw [hc]; exact hnd
  · rw [hc, show (construct cs).deck = cs from rfl,
      show (construct cs).held = [] from rfl, show (construct cs).discard = [] from rfl]
    simp

/-- The pile concatenation of `addOk` gains exactly one occurrence of the
new card. -/
theorem count_piles_addOk (s : DeckState) (c : Card) (pile : String) (a : Card) :
    ((addOk s c pile).deck ++ (addOk s c pile).held ++ (addOk s c pile).discard).count a =
      (s.deck ++ s.held ++ s.discard).count a + (if a = c then 1 else 0) := by
  by_cases h1 : pile = "deck" <;> by_cases h2 : pile = "discard" <;>
    by_cases hac : a = c <;>
    simp [addOk, pushPile, h1, h2, hac, List.count_append, List.count_singleton] <;>
    omega

/-- Adding a fresh card preserves the invariant (for any pile name:
an unknown name would throw before mutating, and `pushPile` covers the
three real piles). -/
theorem inv_addOk {s : DeckState} (h : Inv s) {c : Card} (hc : c ∉ s.cards)
    (pile : String) : Inv (addOk s c pile) := by
  obtain ⟨hnd, hperm⟩ := h
  have hcards : (addOk s c pile).cards = s.cards ++ [c] := by
    rw [cards_addOk]; simp [setAdd, hc]
  constructor
  · rw [hcards]
    simp [List.nodup_append, hnd, hc]
  · rw [List.perm_iff_count]
    intro a
    rw [count_piles_addOk, hcards]
    have hcnt := hperm.count_eq a
    simp only [List.count_append] at hcnt ⊢
    by_cases hac : a = c
    · subst hac
      simp [List.count_singleton_self]
      omega
    · simp [hac, Ne.symm hac, List.count_singleton]
      omega

/-- Removing a card preserves the invariant. -/
theorem inv_remove {s : DeckState} (h : Inv s) (c : Card) : Inv (remove s c) := by
  obtain ⟨hnd, hperm⟩ := h
  refine ⟨hnd.filter _, ?_⟩
  rw [List.perm_iff_count]
  intro a
  have hcnt := hperm.count_eq a
  have hle : s.cards.count c ≤ 1 := List.nodup_iff_count_le_one.mp hnd c
  by_cases hac : a = c
  · subst hac
    have hz : (remove s a).cards.count a = 0 := by
      apply List.count_eq_zero.mpr
      simp [remove, setDelete]
    rw [hz]
    have hccnt := hperm.count_eq a
    simp only [remove, arrayRemove, List.count_append, List.count_erase_self]
    simp only [List.count_append] at hccnt
    omega
  · have hfa : (remove s c).cards.count a = s.cards.count a := by
      simp only [remove, setDelete]
      exact List.count_filter (by simp [hac])
    rw [hfa]
    simp only [remove, arrayRemove, List.count_append, List.count_erase_of_ne hac]
    simp only [List.count_append] at hcnt
    omega

/-- A successful `draw` preserves the invariant. -/
theorem inv_draw {s s1 : DeckState} {count : Int} {r : List Card}
    (h : draw s count = .ok (r, s1)) (hi : Inv s) : Inv s1 := by
  obtain ⟨hnd, hperm⟩ := hi
  by_cases hd : s.deck = []
  · simp [draw, hd] at h
  · by_cases hc : count < 0
    · simp [draw, hd, hc] at h
      obtain ⟨-, h2⟩ := h
      exact h2 ▸ ⟨hnd, hperm⟩
    · simp [draw, hd, hc] at h
      obtain ⟨-, h2⟩ := h
      subst h2
      refine ⟨hnd, ?_⟩
      rw [List.perm_iff_count]
      intro a
      have hcnt := hperm.count_eq a
      have htd := congrArg (List.count a) (List.take_append_drop count.toNat s.deck)
      simp only [List.count_append] at hcnt htd ⊢
      omega

/-- A successful `drawFromBottom` preserves the invariant. -/
theorem inv_drawFromBottom {s s1 : DeckState} {count : Int} {r : List Card}
    (h : drawFromBottom s count = .ok (r, s1)) (hi : Inv s) : Inv s1 := by
  obtain ⟨hnd, hperm⟩ := hi
  by_cases hd : s.deck = []
  · simp [drawFromBottom, hd] at h
  · by_cases hc : count < 0
    · simp [drawFromBottom, hd, hc] at h
      obtain ⟨-, h2⟩ := h
      exact h2 ▸ ⟨hnd, hperm⟩
    · simp [drawFromBottom, hd, hc] at h
      obtain ⟨-, h2⟩ := h
      subst h2
      refine ⟨hnd, ?_⟩
      rw [List.perm_iff_count]
      intro a
      have hcnt := hperm.count_eq a
      have htd := congrArg (List.count a)
        (List.take_append_drop (s.deck.length - count.toNat) s.deck)
      simp only [List.count_append] at hcnt htd ⊢
      simp only [List.count_reverse]
      omega

/-- A successful `drawToDiscard` preserves the invariant. -/
theorem inv_drawToDiscard {s s1 : DeckState} {count : Int} {r : List Card}
    (h : drawToDiscard s count = .ok (r, s1)) (hi : Inv s) : Inv s1 := by
  obtain ⟨hnd, hperm⟩ := hi
  by_cases hd : s.deck = []
  · simp [drawToDiscard, hd] at h
  · by_cases hc : count < 0
    · simp [drawToDiscard, hd, hc] at h
      obtain ⟨-, h2⟩ := h
      exact h2 ▸ ⟨hnd, hperm⟩
    · simp [drawToDiscard, hd, hc] at h
      obtain ⟨-, h2⟩ := h
      subst h2
      refine ⟨hnd, ?_⟩
      rw [List.perm_iff_count]
      intro a
      have hcnt := hperm.count_eq a
      have htd := congrArg (List.count a) (List.take_append_drop count.toNat s.deck)
      simp only [List.count_append] at hcnt htd ⊢
      omega

/-- A successful `drawToDiscardFromBottom` preserves the invariant. -/
theorem inv_drawToDiscardFromBottom {s s1 : DeckState} {count : Int} {r : List Card}
    (h : drawToDiscardFromBottom s count = .ok (r, s1)) (hi : Inv s) : Inv s1 := by
  obtain ⟨hnd, hperm⟩ := hi
  by_cases hd : s.deck = []
  · simp [drawToDiscardFromBottom, hd] at h
  · by_cases hc : count < 0
    · simp [drawToDiscardFromBottom, hd, hc] at h
      obtain ⟨-, h2⟩ := h
      exact h2 ▸ ⟨hnd, hperm⟩
    · simp [drawToDiscardFromBottom, hd, hc] at h
      obtain ⟨-, h2⟩ := h
      subst h2
      refine ⟨hnd, ?_⟩
      rw [List.perm_iff_count]
      intro a
      have hcnt := hperm.count_eq a
      have htd := congrArg (List.count a)
        (List.take_append_drop (s.deck.length - count.toNat) s.deck)
      simp only [List.count_append] at hcnt htd ⊢
      simp only [List.count_reverse]
      omega

/-- A successful single-card `discard` preserves the invariant. -/
theorem inv_discardCard {s s1 : DeckState} {c : Card}
    (h : discardCard s c = .ok s1) (hi : Inv s) : Inv s1 := by
  obtain ⟨hnd, hperm⟩ := hi
  by_cases hm : c ∈ s.cards
  · by_cases hd : c ∈ s.deck
    · simp [discardCard, hm, hd] at h
      subst h
      refine ⟨hnd, ?_⟩
      rw [List.perm_iff_count]
      intro a
      have hcnt := hperm.count_eq a
      have hpos : 0 < s.deck.count c := List.count_pos_iff.mpr hd
      simp only [List.count_append] at hcnt ⊢
      by_cases hac : a = c
      · subst hac
        simp [List.count_erase_self, List.count_singleton_self]
        omega
      · simp [List.count_erase_of_ne hac, hac, Ne.symm hac, List.count_singleton]
        omega
    · by_cases hh : c ∈ s.held
      · simp [discardCard, hm, hd, hh] at h
        subst h
        refine ⟨hnd, ?_⟩
        rw [List.perm_iff_count]
        intro a
        have hcnt := hperm.count_eq a
        have hpos : 0 < s.held.count c := List.count_pos_iff.mpr hh
        simp only [List.count_append] at hcnt ⊢
        by_cases hac : a = c
        · subst hac
          simp [List.count_erase_self, List.count_singleton_self]
          omega
        · simp [List.count_erase_of_ne hac, hac, Ne.symm hac, List.count_singleton]
          omega
      · simp [discardCard, hm, hd, hh] at h
        exact h ▸ ⟨hnd, hperm⟩
  · simp [discardCard, hm] at h

/-- The operation `shuffleAll` preserves the invariant (given that the shuffle permutes). -/
theorem inv_shuffleAll {s : DeckState} (sh : List Card → List Card)
    (hsh : (sh (s.deck ++ s.held ++ s.discard)).Perm (s.deck ++ s.held ++ s.discard))
    (hi : Inv s) : Inv (shuffleAll sh s) := by
  obtain ⟨hnd, hperm⟩ := hi
  refine ⟨hnd, ?_⟩
  simp only [shuffleAll, List.append_nil]
  exact hsh.trans hperm

/-- The operation `shuffleRemaining` preserves the invariant. -/
theorem inv_shuffleRemaining {s : DeckState} (sh : List Card → List Card)
    (hsh : (sh s.deck).Perm s.deck) (hi : Inv s) : Inv (shuffleRemaining sh s) := by
  obtain ⟨hnd, hperm⟩ := hi
  exact ⟨hnd, ((hsh.append_right s.held).append_right s.discard).trans hperm⟩

/-- The operation `shuffleDiscard` preserves the invariant. -/
theorem inv_shuffleDiscard {s : DeckState} (sh : List Card → List Card)
    (hsh : (sh s.discard).Perm s.discard) (hi : Inv s) : Inv (shuffleDiscard sh s) := by
  obtain ⟨hnd, hperm⟩ := hi
  refine ⟨hnd, ?_⟩
  rw [List.perm_iff_count]
  intro a
  have hcnt := hperm.count_eq a
  have hshc := hsh.count_eq a
  simp only [shuffleDiscard, List.count_append, List.count_nil] at hcnt hshc ⊢
  omega

/-- The operation `shuffleDeckAndDiscard` preserves the invariant. -/
theorem inv_shuffleDeckAndDiscard {s : DeckState} (sh : List Card → List Card)
    (hsh : (sh (s.deck ++ s.discard)).Perm (s.deck ++ s.discard)) (hi : Inv s) :
    Inv (shuffleDeckAndDiscard sh s) := by
  obtain ⟨hnd, hperm⟩ := hi
  refine ⟨hnd, ?_⟩
  rw [List.perm_iff_count]
  intro a
  have hcnt := hperm.count_eq a
  have hshc := hsh.count_eq a
  simp only [shuffleDeckAndDiscard, List.count_append, List.count_nil] at hcnt hshc ⊢
  omega

/-- The operation `discardAllHeld` preserves the invariant. -/
theorem inv_discardAllHeld {s : DeckState} (hi : Inv s) : Inv (discardAllHeld s) := by
  obtain ⟨hnd, hperm⟩ := hi
  refine ⟨hnd, ?_⟩
  rw [List.perm_iff_count]
  intro a
  have hcnt := hperm.count_eq a
  simp only [discardAllHeld, List.count_append, List.count_nil] at hcnt ⊢
  omega

/-- The target side of a `merge` of pairwise-distinct fresh cards preserves
the invariant. -/
theorem inv_addAll (pile : String) (l : List Card) :
    ∀ s : DeckState, Inv s → l.Nodup → (∀ c ∈ l, c ∉ s.cards) → Inv (addAll s l pile) := by
  induction l with
  | nil => intro s hi _ _; exact hi
  | cons c cs ih =>
    intro s hi hnd hfresh
    rw [show addAll s (c :: cs) pile = addAll (addOk s c pile) cs pile from rfl]
    obtain ⟨hcc, hndcs⟩ := List.nodup_cons.mp hnd
    apply ih _ (inv_addOk hi (hfresh c (by simp)) pile) hndcs
    intro a ha
    rw [cards_addOk, mem_setAdd]
    rintro (h1 | rfl)
    · exact hfresh a (by simp [ha]) h1
    · exact hcc ha

/-- The source side of a `merge` preserves the invariant. -/
theorem inv_removeAll (l : List Card) : ∀ s : DeckState, Inv s → Inv (removeAll s l) := by
  induction l with
  | nil => intro s hi; exact hi
  | cons c cs ih =>
    intro s hi
    exact ih _ (inv_remove hi c)

/-- Every reachable state (under the freshness discipline) satisfies the
pile-membership invariant. -/
theorem reachFresh_inv {s : DeckState} (h : ReachFresh s) : Inv s := by
  induction h with
  | init cs hnd => exact inv_construct cs hnd
  | addStep c pile hp hfresh _ ih => exact inv_addOk ih hfresh pile
  | removeStep c _ ih => exact inv_remove ih c
  | mergeTargetStep cs pile hp hnd hfresh _ ih => exact inv_addAll pile cs _ ih hnd hfresh
  | mergeSourceStep cs _ ih => exact inv_removeAll cs _ ih
  | drawStep count r h _ ih => exact inv_draw h ih
  | drawFromBottomStep count r h _ ih => exact inv_drawFromBottom h ih
  | drawToDiscardStep count r h _ ih => exact inv_drawToDiscard h ih
  | drawToDiscardFromBottomStep count r h _ ih => exact inv_drawToDiscardFromBottom h ih
  | discardStep c h _ ih => exact inv_discardCard h ih
  | shuffleAllStep sh hsh _ ih => exact inv_shuffleAll sh hsh ih
  | shuffleRemainingStep sh hsh _ ih => exact inv_shuffleRemaining sh hsh ih
  | shuffleDiscardStep sh hsh _ ih => exact inv_shuffleDiscard sh hsh ih
  | shuffleDeckAndDiscardStep sh hsh _ ih => exact inv_shuffleDeckAndDiscard sh hsh ih
  | discardAllHeldStep _ ih => exact inv_discardAllHeld ih

/-- C2 (amended): in every state reachable from a fresh constructor call by
public operations that never introduce a card already belonging to the deck
(constructor list duplicate-free, `add`/`merge`-target cards fresh), each
member card occurs exactly once in the concatenation of the three piles —
i.e. it lies in exactly one pile, at most once — and the pile sizes sum to
`|allCards|`. -/
theorem reachFresh_pile_partition (s : DeckState) (h : ReachFresh s) :
    (∀ c ∈ s.cards, (s.deck ++ s.held ++ s.discard).count c = 1)
    ∧ s.deck.length + s.held.length + s.discard.length = s.cards.length := by
  obtain ⟨hnd, hperm⟩ := reachFresh_inv h
  constructor
  · intro c hc
    rw [hperm.count_eq c]
    exact List.count_eq_one_of_mem hnd hc
  · have hlen := hperm.length_eq
    simp only [List.length_append] at hlen
    omega

/-- Witness for C2 at the deck constructed from `[0, 1]`. -/
theorem reachFresh_pile_partition_check :
    (construct [0, 1]).deck.length + (construct [0, 1]).held.length
        + (construct [0, 1]).discard.length =
      (construct [0, 1]).cards.length :=
  (reachFresh_pile_partition (construct [0, 1]) (ReachFresh.init [0, 1] (by decide))).2

/-- Counterexample to C2 as stated: from `new Deck([0])`, the public call
`add(0, "held")` (re-adding a card already in `allCards`) reaches a state
where card 0 sits in BOTH the draw and the held pile: its count across the
piles is 2, and the pile sizes sum to 2 while `|allCards| = 1`. -/
theorem readding_member_breaks_partition :
    add (construct [0]) 0 "held" =
      .ok { cards := [0], deck := [0], held := [0], discard := [] }
    ∧ ((DeckState.deck { cards := [0], deck := [0], held := [0], discard := [] }
        ++ DeckState.held { cards := [0], deck := [0], held := [0], discard := [] }
        ++ DeckState.discard { cards := [0], deck := [0], held := [0], discard := [] }).count 0
        = 2)
    ∧ totalLength { cards := [0], deck := [0], held := [0], discard := [] } = 1 := by
  refine ⟨?_, by decide, rfl⟩
  rfl

/-- C10: `merge` with an invalid pile name is not atomic: the error escapes
only after the first iterated card has been removed from the source deck's
membership set and piles and its back-reference cleared; the target deck is
untouched. -/
theorem merge_invalid_pile_mutates_source (w : TwoDecks) (pile : String)
    (hp : pile ∉ pileNames) (c : Card) (cs : List Card)
    (hcards : w.d2.cards = c :: cs) :
    (merge pile w).2 = some (DeckError.invalidPile pile)
    ∧ (merge pile w).1.d1 = w.d1
    ∧ (merge pile w).1.backref c = none
    ∧ (merge pile w).1.d2.cards = setDelete w.d2.cards c
    ∧ c ∉ (merge pile w).1.d2.cards
    ∧ (merge pile w).1.d2.deck = w.d2.deck.erase c
    ∧ (merge pile w).1.d2.held = w.d2.held.erase c
    ∧ (merge pile w).1.d2.discard = w.d2.discard.erase c := by
  have hstep : merge pile w = (removeSnd w c, some (DeckError.invalidPile pile)) := by
    simp [merge, hcards, mergeAux, addFst, hp]
  rw [hstep]
  refine ⟨rfl, rfl, by simp [removeSnd], rfl, ?_, rfl, rfl, rfl⟩
  simp [removeSnd, remove, setDelete]

/-- Witness for C10 at a concrete world and the pile name "bogus". -/
theorem merge_invalid_pile_mutates_source_check :
    (merge "bogus"
      { d1 := { cards := [], deck := [], held := [], discard := [] }
        d2 := { cards := [7], deck := [7], held := [], discard := [] }
        backref := fun x => if x = 7 then some true else none }).2 =
      some (DeckError.invalidPile "bogus")
    ∧ (merge "bogus"
      { d1 := { cards := [], deck := [], held := [], discard := [] }
        d2 := { cards := [7], deck := [7], held := [], discard := [] }
        backref := fun x => if x = 7 then some true else none }).1.d1 =
        { cards := [], deck := [], held := [], discard := [] }
    ∧ (merge "bogus"
      { d1 := { cards := [], deck := [], held := [], discard := [] }
        d2 := { cards := [7], deck := [7], held := [], discard := [] }
        backref := fun x => if x = 7 then some true else none }).1.backref 7 = none
    ∧ (merge "bogus"
      { d1 := { cards := [], deck := [], held := [], discard := [] }
        d2 := { cards := [7], deck := [7], held := [], discard := [] }
        backref := fun x => if x = 7 then some true else none }).1.d2.cards =
        setDelete [7] 7
    ∧ 7 ∉ (merge "bogus"
      { d1 := { cards := [], deck := [], held := [], discard := [] }
        d2 := { cards := [7], deck := [7], held := [], discard := [] }
        backref := fun x => if x = 7 then some true else none }).1.d2.cards
    ∧ (merge "bogus"
      { d1 := { cards := [], deck := [], held := [], discard := [] }
        d2 := { cards := [7], deck := [7], held := [], discard := [] }
        backref := fun x => if x = 7 then some true else none }).1.d2.deck =
        List.erase [7] 7
    ∧ (merge "bogus"
      { d1 := { cards := [], deck := [], held := [], discard := [] }
        d2 := { cards := [7], deck := [7], held := [], discard := [] }
        backref := fun x => if x = 7 then some true else none }).1.d2.held =
        List.erase [] 7
    ∧ (merge "bogus"
      { d1 := { cards := [], deck := [], held := [], discard := [] }
        d2 := { cards := [7], deck := [7], held := [], discard := [] }
        backref := fun x => if x = 7 then some true else none }).1.d2.discard =
        List.erase [] 7 :=
  merge_invalid_pile_mutates_source _ "bogus" (by decide) 7 [] rfl

end Cards
